import Mathlib

/-!
Verification of `src/calc_adj.py` (influence-function least-squares fitting).

The numpy arrays of the source are embedded as dimension tuples together with
total entry functions (`Arr2`, `Arr4`); machine floats are modelled as exact
rationals.  `calc_adj` is translated step by step: boundary clipping with the
Python truthiness of the `clip` argument (`if clip:`), the row-major reshapes
and transposes, the `mgrid` subsampling, the SVD-based pseudo-inverse solve,
and the final reconstruction and reshape.

The solve `U, s, Vh = svd(M); Minv = Vh.T @ diag(1/s) @ U.T` is modelled by
its exact-arithmetic value.  When every economy singular value of `M` is
nonzero — equivalently, when the Gram determinant of the smaller side
(`det (Mᵀ*M)` for at least as many rows as columns, `det (M*Mᵀ)` otherwise)
is nonzero — `Minv` equals the closed-form pseudo-inverse `(Mᵀ M)⁻¹ Mᵀ`
(respectively `Mᵀ (M Mᵀ)⁻¹`) used here.  When some singular value is zero,
`1 / s` divides by zero; the float code silently propagates the resulting
non-finite values, which the embedding reports as a `divideByZero` failure.
The dynamic numpy failure points of the source (the `-1` reshapes of lines
27–28, which raise when the product of the known dimensions is zero, a zero
`mgrid` step, the fancy indexing `displ[i_ss, j_ss]` reading out of range,
and the final `adj.reshape(*displ.shape)` with mismatched sizes) are
modelled as the corresponding `Except` errors, in source order.

All pipeline data is kept as plain `ℕ`-indexed functions with explicit
dimensions, mirroring numpy buffers; `sysMatrix`, `sampledTarget` and the
lemmas below bridge the pipeline to Mathlib matrices for the linear-algebra
theorems.
-/

open Matrix

/-- A numpy-style 2D real array: two dimensions and a total entry function. -/
structure Arr2 where
  d1 : ℕ
  d2 : ℕ
  val : ℕ → ℕ → ℚ

/-- A numpy-style 4D real array: four dimensions and a total entry function. -/
structure Arr4 where
  d1 : ℕ
  d2 : ℕ
  d3 : ℕ
  d4 : ℕ
  val : ℕ → ℕ → ℕ → ℕ → ℚ

/-- The numeric value of the optional `clip` argument (`None` counts as 0). -/
def clipVal : Option ℕ → ℕ
  | none => 0
  | some c => c

/-- Python truthiness of the `clip` argument in `if clip:`:
`None` and `0` are falsy, every nonzero integer is truthy. -/
def clipTruthy : Option ℕ → Bool
  | none => false
  | some c => c != 0

/-- Numpy slice `displ[clip:-clip, clip:-clip]`: trim `c` cells from each edge of both
axes.  With numpy slice clamping the result has `d - 2*c` rows/columns
(truncated subtraction), entry `(i, j)` reading the original `(c+i, c+j)`. -/
def clip2 (a : Arr2) (c : ℕ) : Arr2 :=
  { d1 := a.d1 - 2 * c
    d2 := a.d2 - 2 * c
    val := fun i j => a.val (c + i) (c + j) }

/-- Numpy slice `ifuncs[:, :, clip:-clip, clip:-clip]`: trim the last two axes. -/
def clip4 (a : Arr4) (c : ℕ) : Arr4 :=
  { d1 := a.d1
    d2 := a.d2
    d3 := a.d3 - 2 * c
    d4 := a.d4 - 2 * c
    val := fun r s i j => a.val r s (c + i) (c + j) }

/-- The working influence-function bank after the `if clip:` block. -/
def workIfuncs (ifuncs : Arr4) (clip : Option ℕ) : Arr4 :=
  if clipTruthy clip then clip4 ifuncs (clipVal clip) else ifuncs

/-- The working displacement map after the `if clip:` block. -/
def workDispl (displ : Arr2) (clip : Option ℕ) : Arr2 :=
  if clipTruthy clip then clip2 displ (clipVal clip) else displ

/-- Number of sample points of `np.mgrid[0:n:step]`, i.e. `ceil (n / step)`
for a positive step. -/
def ssCount (n step : ℕ) : ℕ := (n + step - 1) / step

/-- Number of actuators `n_act` (the squashed first two axes of `ifuncs`). -/
def nAct (w : Arr4) : ℕ := w.d1 * w.d2

/-- Number of subsampled grid points (rows of the system matrix `M`). -/
def kSS (w : Arr4) (n_ss : ℕ) : ℕ := ssCount w.d3 n_ss * ssCount w.d4 n_ss

/-- Entry function of `M_2d_all`: `ifuncs.reshape(-1, n_ax, n_az)` followed by
`.reshape(n_act, -1).transpose()`.  Row `p` ranges over the (clipped) surface
grid in row-major order, column `q` over actuators in row-major order. -/
def M2dAllF (w : Arr4) : ℕ → ℕ → ℚ :=
  fun p q => w.val (q / w.d2) (q % w.d2) (p / w.d4) (p % w.d4)

/-- Entry function of the subsampled system matrix `M`: row `m` enumerates the
`mgrid` sample points `(a * n_ss, b * n_ss)` in row-major order, column `q`
enumerates actuators. -/
def MF (w : Arr4) (n_ss : ℕ) : ℕ → ℕ → ℚ :=
  fun m q =>
    w.val (q / w.d2) (q % w.d2)
      ((m / ssCount w.d4 n_ss) * n_ss) ((m % ssCount w.d4 n_ss) * n_ss)

/-- Entry function of the subsampled flattened target
`d = displ[i_ss, j_ss].flatten()`. -/
def dF (wd : Arr2) (nJ n_ss : ℕ) : ℕ → ℚ :=
  fun m => wd.val ((m / nJ) * n_ss) ((m % nJ) * n_ss)

/-- Sum of the first `n` values of `f` (a flat numpy reduction). -/
def rsum : ℕ → (ℕ → ℚ) → ℚ
  | 0, _ => 0
  | n + 1, f => rsum n f + f n

/-- Kernel of the exact solve: determinant of the leading `n × n` block of a
flat matrix, by cofactor expansion along the first row.  Agrees with
the Mathlib `Matrix.det` (`cdetN_eq_det`). -/
def cdetN : ℕ → (ℕ → ℕ → ℚ) → ℚ
  | 0, _ => 1
  | n + 1, A =>
      rsum (n + 1) fun j =>
        (-1) ^ j * A 0 j *
          cdetN n (fun i l => A (i + 1) (if l < j then l else l + 1))

/-- Adjugate of the leading `n × n` block of a flat matrix (entry `(i, j)` is
the determinant of `A` with row `j` replaced by the `i`-th standard basis
vector); agrees with the Mathlib `Matrix.adjugate` (`cadjN_eq_adjugate`). -/
def cadjN (n : ℕ) (A : ℕ → ℕ → ℚ) : ℕ → ℕ → ℚ :=
  fun i j => cdetN n (fun r c => if r = j then (if c = i then 1 else 0) else A r c)

/-- Inverse of the leading `n × n` block of a flat matrix, as
`det⁻¹ • adjugate`; agrees with the Mathlib `M⁻¹` (`matInvN_eq_inv`). -/
def matInvN (n : ℕ) (A : ℕ → ℕ → ℚ) : ℕ → ℕ → ℚ :=
  fun i j => (cdetN n A)⁻¹ * cadjN n A i j

/-- Entries of the Gram matrix `Mᵀ * M` of the system matrix. -/
def MtMF (w : Arr4) (n_ss : ℕ) : ℕ → ℕ → ℚ :=
  fun i j => rsum (kSS w n_ss) fun m => MF w n_ss m i * MF w n_ss m j

/-- Entries of the Gram matrix `M * Mᵀ` of the system matrix. -/
def MMtF (w : Arr4) (n_ss : ℕ) : ℕ → ℕ → ℚ :=
  fun i j => rsum (nAct w) fun q => MF w n_ss i q * MF w n_ss j q

/-- Gram determinant of the smaller side of `M`: the product of the squares
of the `min(k, n_act)` economy singular values of `M`.  It is nonzero exactly
when the `1 / s` of the source divides by no zero singular value. -/
def gramDetN (w : Arr4) (n_ss : ℕ) : ℚ :=
  if nAct w ≤ kSS w n_ss then cdetN (nAct w) (MtMF w n_ss)
  else cdetN (kSS w n_ss) (MMtF w n_ss)

/-- Exact-arithmetic value of `Minv = Vh.T @ diag(1/s) @ U.T` when no
singular value is zero: the closed-form pseudo-inverse, `(Mᵀ M)⁻¹ Mᵀ` in the
overdetermined case and `Mᵀ (M Mᵀ)⁻¹` in the underdetermined one. -/
def pinvF (w : Arr4) (n_ss : ℕ) : ℕ → ℕ → ℚ :=
  if nAct w ≤ kSS w n_ss then
    fun t m => rsum (nAct w) fun j => matInvN (nAct w) (MtMF w n_ss) t j * MF w n_ss m j
  else
    fun t m => rsum (kSS w n_ss) fun i => MF w n_ss i t * matInvN (kSS w n_ss) (MMtF w n_ss) i m

/-- Source line `coeffs = Minv.dot(d)` on the clipped working data. -/
def coeffsF (w : Arr4) (wd : Arr2) (n_ss : ℕ) : ℕ → ℚ :=
  fun t => rsum (kSS w n_ss) fun m => pinvF w n_ss t m * dF wd (ssCount w.d4 n_ss) n_ss m

/-- Source line `adj = M_2d_all.dot(coeffs)`, the flat full-resolution adjustment. -/
def adjFlatF (w : Arr4) (wd : Arr2) (n_ss : ℕ) : ℕ → ℚ :=
  fun p => rsum (nAct w) fun t => M2dAllF w p t * coeffsF w wd n_ss t

/-- Source line `adj_2d = adj.reshape(*displ.shape)` (row-major). -/
def adjArr (w : Arr4) (wd : Arr2) (n_ss : ℕ) : Arr2 :=
  { d1 := wd.d1
    d2 := wd.d2
    val := fun i j => adjFlatF w wd n_ss (i * wd.d2 + j) }

/-- The dynamic failures `calc_adj` can hit, in pipeline order.
`emptyReshape` is the numpy `ValueError` of `ifuncs.reshape(-1, n_ax, n_az)`
and `.reshape(n_act, -1)` (source lines 27–28): a `-1` dimension cannot be
resolved when the product of the known dimensions is zero, so an empty
clipped surface grid or an actuator-free bank raises there.  `reshapeError`
is the `ValueError` of the final `adj.reshape(*displ.shape)` (line 55). -/
inductive CalcError where
  | emptyReshape
  | zeroStride
  | indexError
  | divideByZero
  | reshapeError
  deriving DecidableEq

/-- What `calc_adj` returns: `coeffs, adj_2d, M_2d_all` with their shapes. -/
structure FitResult where
  numCoeffs : ℕ
  coeffs : ℕ → ℚ
  adj : Arr2
  MallRows : ℕ
  MallCols : ℕ
  Mall : ℕ → ℕ → ℚ

/-- The successful return value `coeffs, adj_2d, M_2d_all` of `calc_adj`. -/
def okResult (w : Arr4) (wd : Arr2) (n_ss : ℕ) : FitResult :=
  { numCoeffs := nAct w
    coeffs := fun t => if t < nAct w then coeffsF w wd n_ss t else 0
    adj := adjArr w wd n_ss
    MallRows := w.d3 * w.d4
    MallCols := nAct w
    Mall := M2dAllF w }

/-- The body of `calc_adj` after the `if clip:` block, on the working arrays.
The guards are the dynamic numpy failure points in source order: the `-1`
reshapes of lines 27–28 (which raise when the clipped surface grid is empty,
respectively when the bank has no actuators), `mgrid` with step 0, the fancy
indexing of `displ` reading out of range, a zero singular value inside
`1 / s`, and the final reshape of `adj` to `displ.shape`. -/
def calcAdjCore (w : Arr4) (wd : Arr2) (n_ss : ℕ) : Except CalcError FitResult :=
  if w.d3 * w.d4 = 0 then .error .emptyReshape
  else if nAct w = 0 then .error .emptyReshape
  else if n_ss = 0 then .error .zeroStride
  else if ¬ ((ssCount w.d3 n_ss = 0 ∨ (ssCount w.d3 n_ss - 1) * n_ss < wd.d1) ∧
             (ssCount w.d4 n_ss = 0 ∨ (ssCount w.d4 n_ss - 1) * n_ss < wd.d2)) then
    .error .indexError
  else if gramDetN w n_ss = 0 then .error .divideByZero
  else if ¬ (w.d3 * w.d4 = wd.d1 * wd.d2) then .error .reshapeError
  else .ok (okResult w wd n_ss)

/-- The embedding of `calc_adj(ifuncs, displ, n_ss, clip)`. -/
def calc_adj (ifuncs : Arr4) (displ : Arr2) (n_ss : ℕ) (clip : Option ℕ) :
    Except CalcError FitResult :=
  calcAdjCore (workIfuncs ifuncs clip) (workDispl displ clip) n_ss

/-- Whether `calc_adj` returned (no exception escaped). -/
def calcOk : Except CalcError FitResult → Bool
  | .ok _ => true
  | .error _ => false

/-- The error `calc_adj` raised, if any. -/
def calcErr : Except CalcError FitResult → Option CalcError
  | .ok _ => none
  | .error e => some e

/-- Fallback result for reading the fields of a failed `calc_adj`. -/
def emptyResult : FitResult :=
  { numCoeffs := 0, coeffs := fun _ => 0, adj := ⟨0, 0, fun _ _ => 0⟩
    MallRows := 0, MallCols := 0, Mall := fun _ _ => 0 }

/-- The result of a successful `calc_adj`. -/
def getRes : Except CalcError FitResult → FitResult
  | .ok r => r
  | .error _ => emptyResult

/-- The subsampled system matrix `M` as a Mathlib matrix
(rows: sample points, columns: actuators). -/
def sysMatrix (w : Arr4) (n_ss : ℕ) : Matrix (Fin (kSS w n_ss)) (Fin (nAct w)) ℚ :=
  Matrix.of fun m q => MF w n_ss m.val q.val

/-- The subsampled target vector `d` as a Mathlib vector. -/
def sampledTarget (w : Arr4) (wd : Arr2) (n_ss : ℕ) : Fin (kSS w n_ss) → ℚ :=
  fun m => dF wd (ssCount w.d4 n_ss) n_ss m.val

/-- Squared Euclidean norm of a rational vector. -/
def sqnorm {k : ℕ} (v : Fin k → ℚ) : ℚ := ∑ m, v m * v m

/-- The mirror-symmetry expansion of `load_ifuncs`: from one quadrant `if10`
(shape `(10, 10, n_ax, n_az)` in the source) build the full `(20, 20)` bank
by reflecting the actuator and surface axes together, exactly as the four
slice assignments of the source do. -/
def load_ifuncs_expand (if10 : Arr4) : Arr4 :=
  { d1 := 20
    d2 := 20
    d3 := if10.d3
    d4 := if10.d4
    val := fun r c x y =>
      if r < 10 then
        if c < 10 then if10.val r c x y
        else if10.val r (19 - c) x (if10.d4 - 1 - y)
      else
        if c < 10 then if10.val (19 - r) c (if10.d3 - 1 - x) y
        else if10.val (19 - r) (19 - c) (if10.d3 - 1 - x) (if10.d4 - 1 - y) }

/-! ## Concrete inputs used by the witnesses and counterexamples -/

/-- A one-actuator bank on a 1×1 grid with unit response. -/
def bank1 : Arr4 := ⟨1, 1, 1, 1, fun _ _ _ _ => 1⟩

/-- A 1×1 unit displacement map. -/
def displ1 : Arr2 := ⟨1, 1, fun _ _ => 1⟩

/-- A one-actuator bank on an 8×8 grid with unit response everywhere. -/
def bank88 : Arr4 := ⟨1, 1, 8, 8, fun _ _ _ _ => 1⟩

/-- An 8×8 unit displacement map. -/
def displ88 : Arr2 := ⟨8, 8, fun _ _ => 1⟩

/-- A bank whose surface grid is already empty with no clipping: shape `(1, 1, 0, 8)`. -/
def bank08 : Arr4 := ⟨1, 1, 0, 8, fun _ _ _ _ => 1⟩

/-- An 8×9 unit displacement map (mismatched with an 8×8 bank grid). -/
def displ89 : Arr2 := ⟨8, 9, fun _ _ => 1⟩

/-- A 64×1 unit displacement map (mismatched shape, equal total size). -/
def displ64x1 : Arr2 := ⟨64, 1, fun _ _ => 1⟩

/-- A bank with two identical actuators on a 2×2 grid: its system matrix is
nonzero but rank-deficient (one positive and one zero singular value). -/
def bankDup : Arr4 := ⟨1, 2, 2, 2, fun _ _ _ _ => 1⟩

/-- A 2×2 unit displacement map. -/
def displ22 : Arr2 := ⟨2, 2, fun _ _ => 1⟩

/-- A one-actuator bank on a 3×3 grid with unit response everywhere. -/
def bank3 : Arr4 := ⟨1, 1, 3, 3, fun _ _ _ _ => 1⟩

/-- A 3×3 unit displacement map. -/
def displ3 : Arr2 := ⟨3, 3, fun _ _ => 1⟩

/-- An all-zero one-actuator bank on a 2×2 grid. -/
def zbank : Arr4 := ⟨1, 1, 2, 2, fun _ _ _ _ => 0⟩

/-- The spec scenario bank: shape `(4, 4, 8, 8)`, actuator `(r, c)` a unit
impulse at the distinct grid cell with flat index `r * 4 + c`. -/
def scenarioBank : Arr4 :=
  ⟨4, 4, 8, 8, fun r c x y => if x * 8 + y = r * 4 + c then 1 else 0⟩

/-- The spec scenario coefficients: `2.0` on actuator 0, `-1.5` on actuator 5,
zero elsewhere. -/
def scenarioC0 : ℕ → ℚ := fun t => if t = 0 then 2 else if t = 5 then -(3 / 2) else 0

/-- The spec scenario displacement: the exact linear combination of the
scenario bank with the scenario coefficients. -/
def scenarioDispl : Arr2 :=
  ⟨8, 8, fun x y =>
    rsum (scenarioBank.d1 * scenarioBank.d2) fun t =>
      scenarioC0 t * scenarioBank.val (t / scenarioBank.d2) (t % scenarioBank.d2) x y⟩

/-- A concrete quadrant bank of shape `(10, 10, 2, 3)` with distinct entries. -/
def quadQ : Arr4 :=
  ⟨10, 10, 2, 3, fun r c x y => (r : ℚ) + 100 * c + 10000 * x + 1000000 * y⟩

/-! ## Basic lemmas about the building blocks -/

theorem rsum_zero (f : ℕ → ℚ) : rsum 0 f = 0 := rfl

theorem rsum_one (f : ℕ → ℚ) : rsum 1 f = f 0 := by simp [rsum]

theorem rsum_succ (n : ℕ) (f : ℕ → ℚ) : rsum (n + 1) f = rsum n f + f n := rfl

theorem rsum_const (n : ℕ) (c : ℚ) : rsum n (fun _ => c) = n * c := by
  induction n with
  | zero => simp [rsum]
  | succ n ih => rw [rsum_succ, ih]; push_cast; ring

theorem rsum_congr {n : ℕ} {f g : ℕ → ℚ} (h : ∀ i, i < n → f i = g i) :
    rsum n f = rsum n g := by
  induction n with
  | zero => rfl
  | succ n ih =>
    rw [rsum_succ, rsum_succ, ih fun i hi => h i (Nat.lt_succ_of_lt hi),
      h n (Nat.lt_succ_self n)]

theorem rsum_eq_sum (n : ℕ) (f : ℕ → ℚ) : rsum n f = ∑ i : Fin n, f i.val := by
  induction n with
  | zero => simp [rsum]
  | succ n ih =>
    rw [rsum_succ, ih, Fin.sum_univ_castSucc]
    simp

theorem clipVal_of_not_truthy {clip : Option ℕ} (h : clipTruthy clip = false) :
    clipVal clip = 0 := by
  cases clip with
  | none => rfl
  | some c => simpa [clipTruthy, clipVal] using h

theorem workIfuncs_d1 (a : Arr4) (clip : Option ℕ) : (workIfuncs a clip).d1 = a.d1 := by
  unfold workIfuncs
  split <;> rfl

theorem workIfuncs_d2 (a : Arr4) (clip : Option ℕ) : (workIfuncs a clip).d2 = a.d2 := by
  unfold workIfuncs
  split <;> rfl

theorem workIfuncs_d3 (a : Arr4) (clip : Option ℕ) :
    (workIfuncs a clip).d3 = a.d3 - 2 * clipVal clip := by
  unfold workIfuncs
  split
  · rfl
  · rename_i h
    rw [clipVal_of_not_truthy (Bool.of_not_eq_true h)]
    simp

theorem workIfuncs_d4 (a : Arr4) (clip : Option ℕ) :
    (workIfuncs a clip).d4 = a.d4 - 2 * clipVal clip := by
  unfold workIfuncs
  split
  · rfl
  · rename_i h
    rw [clipVal_of_not_truthy (Bool.of_not_eq_true h)]
    simp

theorem workIfuncs_val (a : Arr4) (clip : Option ℕ) (r s x y : ℕ) :
    (workIfuncs a clip).val r s x y = a.val r s (clipVal clip + x) (clipVal clip + y) := by
  unfold workIfuncs
  split
  · rfl
  · rename_i h
    rw [clipVal_of_not_truthy (Bool.of_not_eq_true h)]
    simp

theorem workDispl_d1 (a : Arr2) (clip : Option ℕ) :
    (workDispl a clip).d1 = a.d1 - 2 * clipVal clip := by
  unfold workDispl
  split
  · rfl
  · rename_i h
    rw [clipVal_of_not_truthy (Bool.of_not_eq_true h)]
    simp

theorem workDispl_d2 (a : Arr2) (clip : Option ℕ) :
    (workDispl a clip).d2 = a.d2 - 2 * clipVal clip := by
  unfold workDispl
  split
  · rfl
  · rename_i h
    rw [clipVal_of_not_truthy (Bool.of_not_eq_true h)]
    simp

theorem workDispl_val (a : Arr2) (clip : Option ℕ) (x y : ℕ) :
    (workDispl a clip).val x y = a.val (clipVal clip + x) (clipVal clip + y) := by
  unfold workDispl
  split
  · rfl
  · rename_i h
    rw [clipVal_of_not_truthy (Bool.of_not_eq_true h)]
    simp

theorem ssCount_zero (s : ℕ) : ssCount 0 s = 0 := by
  rcases Nat.eq_zero_or_pos s with h | h
  · simp [ssCount, h]
  · exact Nat.div_eq_of_lt (by omega)

theorem ssCount_pos {n s : ℕ} (hn : 0 < n) (hs : 0 < s) : 0 < ssCount n s :=
  Nat.div_pos (by omega) hs

theorem ssCount_pred_mul_lt {n s : ℕ} (hs : 0 < s) (hn : 0 < n) :
    (ssCount n s - 1) * s < n := by
  have h1 : ssCount n s * s ≤ n + s - 1 := Nat.div_mul_le_self _ _
  have h2 : 0 < ssCount n s := ssCount_pos hn hs
  have h3 : (ssCount n s - 1) * s = ssCount n s * s - s := by
    rw [Nat.sub_mul, Nat.one_mul]
  omega

theorem flat_div {i j d : ℕ} (hj : j < d) : (i * d + j) / d = i := by
  have hd : 0 < d := Nat.pos_of_ne_zero fun h => by omega
  have : i * d + j = j + d * i := by ring
  rw [this, Nat.add_mul_div_left _ _ hd, Nat.div_eq_of_lt hj, Nat.zero_add]

theorem flat_mod {i j d : ℕ} (hj : j < d) : (i * d + j) % d = j := by
  have : i * d + j = j + d * i := by ring
  rw [this, Nat.add_mul_mod_self_left, Nat.mod_eq_of_lt hj]

theorem div_mul_add_mod (m d : ℕ) : m / d * d + m % d = m := by
  rw [Nat.mul_comm]
  exact Nat.div_add_mod m d

/-! ## Bridging the flat solve kernel to Mathlib matrices -/

theorem succAbove_val {n : ℕ} (p : Fin (n + 1)) (l : Fin n) :
    (p.succAbove l).val = if l.val < p.val then l.val else l.val + 1 := by
  rw [Fin.succAbove]
  split
  · rename_i h
    rw [if_pos (by simpa [Fin.lt_def] using h)]
    rfl
  · rename_i h
    rw [if_neg (by simpa [Fin.lt_def] using h)]
    rfl

theorem cdetN_eq_det : ∀ {n : ℕ} (A : ℕ → ℕ → ℚ) (M : Matrix (Fin n) (Fin n) ℚ),
    (∀ i j : Fin n, A i.val j.val = M i j) → cdetN n A = M.det
  | 0, _, M, _ => by rw [cdetN, Matrix.det_fin_zero]
  | n + 1, A, M, h => by
    rw [cdetN, Matrix.det_succ_row_zero, rsum_eq_sum]
    refine Finset.sum_congr rfl fun j _ => ?_
    have h0 : A 0 j.val = M 0 j := by simpa using h 0 j
    rw [h0]
    congr 1
    refine cdetN_eq_det _ _ fun i l => ?_
    rw [Matrix.submatrix_apply, ← h (Fin.succ i) (j.succAbove l), succAbove_val,
      Fin.val_succ]

theorem cadjN_eq_adjugate {n : ℕ} (A : ℕ → ℕ → ℚ) (M : Matrix (Fin n) (Fin n) ℚ)
    (h : ∀ i j : Fin n, A i.val j.val = M i j) (i j : Fin n) :
    cadjN n A i.val j.val = M.adjugate i j := by
  rw [Matrix.adjugate_apply, cadjN]
  refine cdetN_eq_det _ _ fun r c => ?_
  rw [Matrix.updateRow_apply, Pi.single_apply]
  by_cases hr : r = j
  · rw [if_pos (by simpa [Fin.val_eq_val] using hr), if_pos hr]
    by_cases hc : c = i
    · rw [if_pos (by simpa [Fin.val_eq_val] using hc), if_pos hc]
    · rw [if_neg (by simpa [Fin.val_eq_val] using hc), if_neg hc]
  · rw [if_neg (by simpa [Fin.val_eq_val] using hr), if_neg hr]
    exact h r c

theorem matInvN_eq_inv {n : ℕ} (A : ℕ → ℕ → ℚ) (M : Matrix (Fin n) (Fin n) ℚ)
    (h : ∀ i j : Fin n, A i.val j.val = M i j) (i j : Fin n) :
    matInvN n A i.val j.val = M⁻¹ i j := by
  rw [matInvN, Matrix.inv_def, Matrix.smul_apply, Ring.inverse_eq_inv,
    cdetN_eq_det A M h, cadjN_eq_adjugate A M h i j, smul_eq_mul]

/-! ## Bridging the pipeline to Mathlib matrices -/

theorem MtMF_eq (w : Arr4) (n_ss : ℕ) (i j : Fin (nAct w)) :
    MtMF w n_ss i.val j.val = ((sysMatrix w n_ss)ᵀ * sysMatrix w n_ss) i j := by
  rw [MtMF, Matrix.mul_apply, rsum_eq_sum]
  refine Finset.sum_congr rfl fun m _ => ?_
  rw [Matrix.transpose_apply]
  rfl

theorem MMtF_eq (w : Arr4) (n_ss : ℕ) (i j : Fin (kSS w n_ss)) :
    MMtF w n_ss i.val j.val = (sysMatrix w n_ss * (sysMatrix w n_ss)ᵀ) i j := by
  rw [MMtF, Matrix.mul_apply, rsum_eq_sum]
  refine Finset.sum_congr rfl fun q _ => ?_
  rw [Matrix.transpose_apply]
  rfl

theorem gramDetN_eq_left (w : Arr4) (n_ss : ℕ) (hk : nAct w ≤ kSS w n_ss) :
    gramDetN w n_ss = ((sysMatrix w n_ss)ᵀ * sysMatrix w n_ss).det := by
  rw [gramDetN, if_pos hk]
  exact cdetN_eq_det _ _ (MtMF_eq w n_ss)

theorem gramDetN_eq_right (w : Arr4) (n_ss : ℕ) (hk : ¬ nAct w ≤ kSS w n_ss) :
    gramDetN w n_ss = (sysMatrix w n_ss * (sysMatrix w n_ss)ᵀ).det := by
  rw [gramDetN, if_neg hk]
  exact cdetN_eq_det _ _ (MMtF_eq w n_ss)

theorem coeffsF_eq (w : Arr4) (wd : Arr2) (n_ss : ℕ) (hk : nAct w ≤ kSS w n_ss)
    (t : Fin (nAct w)) :
    coeffsF w wd n_ss t.val =
      ((((sysMatrix w n_ss)ᵀ * sysMatrix w n_ss)⁻¹ * (sysMatrix w n_ss)ᵀ).mulVec
        (sampledTarget w wd n_ss)) t := by
  rw [coeffsF, Matrix.mulVec, Matrix.dotProduct, rsum_eq_sum]
  refine Finset.sum_congr rfl fun m _ => ?_
  congr 1
  rw [pinvF, if_pos hk, Matrix.mul_apply, rsum_eq_sum]
  refine Finset.sum_congr rfl fun j _ => ?_
  rw [matInvN_eq_inv _ _ (MtMF_eq w n_ss) t j, Matrix.transpose_apply]
  rfl

/-! ## Running the guarded pipeline -/

theorem calcAdjCore_ok (w : Arr4) (wd : Arr2) (n_ss : ℕ)
    (h0a : w.d3 * w.d4 ≠ 0) (h0b : nAct w ≠ 0)
    (h1 : n_ss ≠ 0)
    (h2 : (ssCount w.d3 n_ss = 0 ∨ (ssCount w.d3 n_ss - 1) * n_ss < wd.d1) ∧
          (ssCount w.d4 n_ss = 0 ∨ (ssCount w.d4 n_ss - 1) * n_ss < wd.d2))
    (h3 : gramDetN w n_ss ≠ 0)
    (h4 : w.d3 * w.d4 = wd.d1 * wd.d2) :
    calcAdjCore w wd n_ss = .ok (okResult w wd n_ss) := by
  rw [calcAdjCore, if_neg h0a, if_neg h0b, if_neg h1, if_neg (not_not_intro h2),
    if_neg h3, if_neg (not_not_intro h4)]

theorem calcAdjCore_ok_iff (w : Arr4) (wd : Arr2) (n_ss : ℕ) :
    calcOk (calcAdjCore w wd n_ss) = true ↔
      (w.d3 * w.d4 ≠ 0 ∧ nAct w ≠ 0 ∧ n_ss ≠ 0 ∧
       ((ssCount w.d3 n_ss = 0 ∨ (ssCount w.d3 n_ss - 1) * n_ss < wd.d1) ∧
        (ssCount w.d4 n_ss = 0 ∨ (ssCount w.d4 n_ss - 1) * n_ss < wd.d2)) ∧
       gramDetN w n_ss ≠ 0 ∧
       w.d3 * w.d4 = wd.d1 * wd.d2) := by
  rw [calcAdjCore]
  by_cases h0a : w.d3 * w.d4 = 0
  · rw [if_pos h0a]
    exact iff_of_false (fun h => Bool.noConfusion h) fun h => h.1 h0a
  rw [if_neg h0a]
  by_cases h0b : nAct w = 0
  · rw [if_pos h0b]
    exact iff_of_false (fun h => Bool.noConfusion h) fun h => h.2.1 h0b
  rw [if_neg h0b]
  by_cases h1 : n_ss = 0
  · rw [if_pos h1]
    exact iff_of_false (fun h => Bool.noConfusion h) fun h => h.2.2.1 h1
  rw [if_neg h1]
  by_cases h2 : (ssCount w.d3 n_ss = 0 ∨ (ssCount w.d3 n_ss - 1) * n_ss < wd.d1) ∧
      (ssCount w.d4 n_ss = 0 ∨ (ssCount w.d4 n_ss - 1) * n_ss < wd.d2)
  · rw [if_neg (not_not_intro h2)]
    by_cases h3 : gramDetN w n_ss = 0
    · rw [if_pos h3]
      exact iff_of_false (fun h => Bool.noConfusion h) fun h => h.2.2.2.2.1 h3
    rw [if_neg h3]
    by_cases h4 : w.d3 * w.d4 = wd.d1 * wd.d2
    · rw [if_neg (not_not_intro h4)]
      exact iff_of_true rfl ⟨h0a, h0b, h1, h2, h3, h4⟩
    · rw [if_pos h4]
      exact iff_of_false (fun h => Bool.noConfusion h) fun h => h4 h.2.2.2.2.2
  · rw [if_pos h2]
    exact iff_of_false (fun h => Bool.noConfusion h) fun h => h2 h.2.2.2.1

theorem getRes_calcAdjCore (w : Arr4) (wd : Arr2) (n_ss : ℕ)
    (hok : calcOk (calcAdjCore w wd n_ss) = true) :
    getRes (calcAdjCore w wd n_ss) = okResult w wd n_ss := by
  obtain ⟨h0a, h0b, h1, h2, h3, h4⟩ := (calcAdjCore_ok_iff w wd n_ss).1 hok
  rw [calcAdjCore_ok w wd n_ss h0a h0b h1 h2 h3 h4]
  rfl

/-! ## The least-squares core -/

theorem sqnorm_nonneg {k : ℕ} (v : Fin k → ℚ) : 0 ≤ sqnorm v :=
  Finset.sum_nonneg fun m _ => mul_self_nonneg (v m)

theorem sqnorm_add_of_orthogonal {k : ℕ} (r v : Fin k → ℚ)
    (h : ∑ m, r m * v m = 0) : sqnorm (r + v) = sqnorm r + sqnorm v := by
  unfold sqnorm
  have expand : ∀ m : Fin k,
      (r + v) m * (r + v) m = r m * r m + (2 * (r m * v m) + v m * v m) := by
    intro m
    simp only [Pi.add_apply]
    ring
  rw [Finset.sum_congr rfl fun m _ => expand m, Finset.sum_add_distrib,
    Finset.sum_add_distrib, ← Finset.mul_sum, h]
  ring

theorem normal_optimal {k n : ℕ} (M : Matrix (Fin k) (Fin n) ℚ) (d : Fin k → ℚ)
    (c : Fin n → ℚ) (hnormal : Mᵀ.mulVec (M.mulVec c - d) = 0) (c' : Fin n → ℚ) :
    sqnorm (M.mulVec c - d) ≤ sqnorm (M.mulVec c' - d) := by
  have split : M.mulVec c' - d = (M.mulVec c - d) + M.mulVec (c' - c) := by
    rw [Matrix.mulVec_sub]
    abel
  have horth : ∑ m, (M.mulVec c - d) m * (M.mulVec (c' - c)) m = 0 := by
    have h1 : ∀ m : Fin k,
        (M.mulVec c - d) m * (M.mulVec (c' - c)) m =
          ∑ j, (Mᵀ j m * (M.mulVec c - d) m) * (c' - c) j := by
      intro m
      rw [Matrix.mulVec, Matrix.dotProduct, Finset.mul_sum]
      refine Finset.sum_congr rfl fun j _ => ?_
      rw [Matrix.transpose_apply]
      ring
    rw [Finset.sum_congr rfl fun m _ => h1 m, Finset.sum_comm]
    refine Finset.sum_eq_zero fun j _ => ?_
    rw [← Finset.sum_mul]
    have h2 : ∑ m, Mᵀ j m * (M.mulVec c - d) m = Mᵀ.mulVec (M.mulVec c - d) j := rfl
    rw [h2, hnormal]
    simp
  rw [split, sqnorm_add_of_orthogonal _ _ horth]
  exact le_add_of_nonneg_right (sqnorm_nonneg _)

theorem pinv_normal {k n : ℕ} (M : Matrix (Fin k) (Fin n) ℚ) (d : Fin k → ℚ)
    (h : (Mᵀ * M).det ≠ 0) :
    Mᵀ.mulVec (M.mulVec (((Mᵀ * M)⁻¹ * Mᵀ).mulVec d) - d) = 0 := by
  have hu : IsUnit (Mᵀ * M).det := isUnit_iff_ne_zero.2 h
  rw [Matrix.mulVec_sub, Matrix.mulVec_mulVec, Matrix.mulVec_mulVec,
    ← Matrix.mul_assoc, Matrix.mul_nonsing_inv _ hu, Matrix.one_mul]
  exact sub_self _

theorem pinv_recover {k n : ℕ} (M : Matrix (Fin k) (Fin n) ℚ)
    (h : (Mᵀ * M).det ≠ 0) (c0 : Fin n → ℚ) :
    ((Mᵀ * M)⁻¹ * Mᵀ).mulVec (M.mulVec c0) = c0 := by
  have hu : IsUnit (Mᵀ * M).det := isUnit_iff_ne_zero.2 h
  rw [Matrix.mulVec_mulVec, Matrix.mul_assoc, Matrix.nonsing_inv_mul _ hu,
    Matrix.one_mulVec]

/-! ## Glue lemmas for the claims -/

theorem workIfuncs_none (a : Arr4) : workIfuncs a none = a := rfl

theorem workDispl_none (a : Arr2) : workDispl a none = a := rfl

theorem calc_adj_def (ifuncs : Arr4) (displ : Arr2) (n_ss : ℕ) (clip : Option ℕ) :
    calc_adj ifuncs displ n_ss clip =
      calcAdjCore (workIfuncs ifuncs clip) (workDispl displ clip) n_ss := rfl

theorem okResult_coeffs_lt (w : Arr4) (wd : Arr2) (n_ss : ℕ) {t : ℕ} (h : t < nAct w) :
    (okResult w wd n_ss).coeffs t = coeffsF w wd n_ss t := by
  rw [okResult]
  exact if_pos h

theorem okResult_coeffs_ge (w : Arr4) (wd : Arr2) (n_ss : ℕ) {t : ℕ} (h : ¬ t < nAct w) :
    (okResult w wd n_ss).coeffs t = 0 := by
  rw [okResult]
  exact if_neg h

theorem workDispl_d1_eq_d3 (ifuncs : Arr4) (displ : Arr2) (clip : Option ℕ)
    (hd1 : displ.d1 = ifuncs.d3) :
    (workDispl displ clip).d1 = (workIfuncs ifuncs clip).d3 := by
  rw [workDispl_d1, workIfuncs_d3, hd1]

theorem workDispl_d2_eq_d4 (ifuncs : Arr4) (displ : Arr2) (clip : Option ℕ)
    (hd2 : displ.d2 = ifuncs.d4) :
    (workDispl displ clip).d2 = (workIfuncs ifuncs clip).d4 := by
  rw [workDispl_d2, workIfuncs_d4, hd2]

theorem index_guard (w : Arr4) (wd : Arr2) (n_ss : ℕ) (hs : 0 < n_ss)
    (h1 : wd.d1 = w.d3) (h2 : wd.d2 = w.d4) :
    (ssCount w.d3 n_ss = 0 ∨ (ssCount w.d3 n_ss - 1) * n_ss < wd.d1) ∧
    (ssCount w.d4 n_ss = 0 ∨ (ssCount w.d4 n_ss - 1) * n_ss < wd.d2) := by
  constructor
  · rcases Nat.eq_zero_or_pos w.d3 with h | h
    · left
      rw [h, ssCount_zero]
    · right
      rw [h1]
      exact ssCount_pred_mul_lt hs h
  · rcases Nat.eq_zero_or_pos w.d4 with h | h
    · left
      rw [h, ssCount_zero]
    · right
      rw [h2]
      exact ssCount_pred_mul_lt hs h

theorem work_grid_ne_zero (ifuncs : Arr4) (clip : Option ℕ)
    (hc1 : 2 * clipVal clip < ifuncs.d3) (hc2 : 2 * clipVal clip < ifuncs.d4) :
    (workIfuncs ifuncs clip).d3 * (workIfuncs ifuncs clip).d4 ≠ 0 := by
  rw [workIfuncs_d3, workIfuncs_d4]
  have h3 : 0 < ifuncs.d3 - 2 * clipVal clip := by omega
  have h4 : 0 < ifuncs.d4 - 2 * clipVal clip := by omega
  exact Nat.pos_iff_ne_zero.mp (Nat.mul_pos h3 h4)

theorem work_nAct_ne_zero (ifuncs : Arr4) (clip : Option ℕ)
    (hn : 0 < ifuncs.d1 * ifuncs.d2) :
    nAct (workIfuncs ifuncs clip) ≠ 0 := by
  rw [nAct, workIfuncs_d1, workIfuncs_d2]
  omega

theorem clip2_zero (a : Arr2) : clip2 a 0 = a := by
  cases a
  simp [clip2]

theorem clip4_zero (a : Arr4) : clip4 a 0 = a := by
  cases a
  simp [clip4]

theorem workIfuncs_some (a : Arr4) (c : ℕ) : workIfuncs a (some c) = clip4 a c := by
  by_cases hc : c = 0
  · subst hc
    rw [workIfuncs, clip4_zero]
    simp [clipTruthy]
  · rw [workIfuncs, if_pos (by simpa [clipTruthy] using hc)]
    rfl

theorem workDispl_some (a : Arr2) (c : ℕ) : workDispl a (some c) = clip2 a c := by
  by_cases hc : c = 0
  · subst hc
    rw [workDispl, clip2_zero]
    simp [clipTruthy]
  · rw [workDispl, if_pos (by simpa [clipTruthy] using hc)]
    rfl

/-! ## Claim theorems -/

/-- Claim C10: calling `calc_adj` with `clip = 0` returns exactly the same
result as calling it with `clip` unset (`None`): the Python test `if clip:` treats
`0` and `None` identically, so a zero clip margin performs no trimming and is
never interpreted as an empty or degenerate slice. -/
theorem calc_adj_clip_zero_eq_none (ifuncs : Arr4) (displ : Arr2) (n_ss : ℕ) :
    calc_adj ifuncs displ n_ss (some 0) = calc_adj ifuncs displ n_ss none := by
  rw [calc_adj_def, calc_adj_def, workIfuncs_some, workDispl_some, clip4_zero, clip2_zero,
    workIfuncs_none, workDispl_none]

/-- Claim C7: `calc_adj` with clip margin `c` equals `calc_adj` with no
clipping applied to the pre-trimmed bank `bank[:, :, c:X-c, c:Y-c]` and the
pre-trimmed displacement `displ[c:X-c, c:Y-c]` — the whole result
(coefficients, adjustment map and full-resolution matrix) coincides, for
every bank, displacement, stride and margin. -/
theorem calc_adj_clip_eq_pretrimmed (ifuncs : Arr4) (displ : Arr2) (n_ss : ℕ) (c : ℕ) :
    calc_adj ifuncs displ n_ss (some c) =
      calc_adj (clip4 ifuncs c) (clip2 displ c) n_ss none := by
  rw [calc_adj_def, calc_adj_def, workIfuncs_some, workDispl_some,
    workIfuncs_none, workDispl_none]

/-- Claim C1: whenever `calc_adj` is called with a positive stride, a valid
clip margin (`2·clip < X` and `2·clip < Y`, the constraint of the spec), an
influence-function bank with at least one actuator, a displacement map
matching the surface grid of the bank, and the subsampled system matrix `M`
has full column rank (at least as many sample points as actuators and
`det (Mᵀ M) ≠ 0`), the call succeeds and the returned coefficient vector is
least-squares optimal: for every other coefficient vector `c'`, the squared
residual `‖M·coeffs - d‖²` is at most `‖M·c' - d‖²`, where `d` is the
subsampled target vector. -/
theorem calc_adj_least_squares
    (ifuncs : Arr4) (displ : Arr2) (n_ss : ℕ) (clip : Option ℕ)
    (hs : 0 < n_ss)
    (hd1 : displ.d1 = ifuncs.d3) (hd2 : displ.d2 = ifuncs.d4)
    (hc1 : 2 * clipVal clip < ifuncs.d3) (hc2 : 2 * clipVal clip < ifuncs.d4)
    (hn : 0 < ifuncs.d1 * ifuncs.d2)
    (hk : nAct (workIfuncs ifuncs clip) ≤ kSS (workIfuncs ifuncs clip) n_ss)
    (hrank : ((sysMatrix (workIfuncs ifuncs clip) n_ss)ᵀ *
        sysMatrix (workIfuncs ifuncs clip) n_ss).det ≠ 0)
    (c' : Fin (nAct (workIfuncs ifuncs clip)) → ℚ) :
    calcOk (calc_adj ifuncs displ n_ss clip) = true ∧
    sqnorm ((sysMatrix (workIfuncs ifuncs clip) n_ss).mulVec
        (fun t => (getRes (calc_adj ifuncs displ n_ss clip)).coeffs t.val) -
      sampledTarget (workIfuncs ifuncs clip) (workDispl displ clip) n_ss) ≤
    sqnorm ((sysMatrix (workIfuncs ifuncs clip) n_ss).mulVec c' -
      sampledTarget (workIfuncs ifuncs clip) (workDispl displ clip) n_ss) := by
  have h2 := index_guard (workIfuncs ifuncs clip) (workDispl displ clip) n_ss hs
    (workDispl_d1_eq_d3 ifuncs displ clip hd1) (workDispl_d2_eq_d4 ifuncs displ clip hd2)
  have h3 : gramDetN (workIfuncs ifuncs clip) n_ss ≠ 0 := by
    rw [gramDetN_eq_left _ _ hk]
    exact hrank
  have h4 : (workIfuncs ifuncs clip).d3 * (workIfuncs ifuncs clip).d4 =
      (workDispl displ clip).d1 * (workDispl displ clip).d2 := by
    rw [workDispl_d1_eq_d3 ifuncs displ clip hd1, workDispl_d2_eq_d4 ifuncs displ clip hd2]
  have hok := calcAdjCore_ok (workIfuncs ifuncs clip) (workDispl displ clip) n_ss
    (work_grid_ne_zero ifuncs clip hc1 hc2) (work_nAct_ne_zero ifuncs clip hn)
    (Nat.pos_iff_ne_zero.mp hs) h2 h3 h4
  rw [calc_adj_def, hok]
  refine ⟨rfl, ?_⟩
  have hres : getRes (Except.ok (okResult (workIfuncs ifuncs clip)
      (workDispl displ clip) n_ss)) =
      okResult (workIfuncs ifuncs clip) (workDispl displ clip) n_ss := rfl
  have hcf : (fun t : Fin (nAct (workIfuncs ifuncs clip)) =>
      (okResult (workIfuncs ifuncs clip) (workDispl displ clip) n_ss).coeffs t.val) =
      ((((sysMatrix (workIfuncs ifuncs clip) n_ss)ᵀ *
          sysMatrix (workIfuncs ifuncs clip) n_ss)⁻¹ *
        (sysMatrix (workIfuncs ifuncs clip) n_ss)ᵀ).mulVec
          (sampledTarget (workIfuncs ifuncs clip) (workDispl displ clip) n_ss)) := by
    funext t
    rw [okResult_coeffs_lt _ _ _ t.isLt, coeffsF_eq _ _ _ hk t]
  rw [hres, hcf]
  exact normal_optimal _ _ _ (pinv_normal _ _ hrank) c'

/-- Witness for C1 at a concrete input: the one-actuator unit bank on a 1×1
grid with stride 1 and no clipping has a full-column-rank system matrix, and
the fitted coefficient is least-squares optimal against the zero vector. -/
theorem calc_adj_least_squares_witness :
    ((sysMatrix (workIfuncs bank1 none) 1)ᵀ * sysMatrix (workIfuncs bank1 none) 1).det ≠ 0 ∧
    (calcOk (calc_adj bank1 displ1 1 none) = true ∧
     sqnorm ((sysMatrix (workIfuncs bank1 none) 1).mulVec
         (fun t => (getRes (calc_adj bank1 displ1 1 none)).coeffs t.val) -
       sampledTarget (workIfuncs bank1 none) (workDispl displ1 none) 1) ≤
     sqnorm ((sysMatrix (workIfuncs bank1 none) 1).mulVec (fun _ => 0) -
       sampledTarget (workIfuncs bank1 none) (workDispl displ1 none) 1)) := by
  have hk : nAct (workIfuncs bank1 none) ≤ kSS (workIfuncs bank1 none) 1 := by
    norm_num [workIfuncs, clipTruthy, bank1, nAct, kSS, ssCount]
  have hg : gramDetN (workIfuncs bank1 none) 1 = 1 := by
    norm_num [workIfuncs, clipTruthy, bank1, nAct, kSS, ssCount, gramDetN, MtMF, MF, cdetN,
      rsum_one, rsum_zero, rsum_succ]
  have hrank : ((sysMatrix (workIfuncs bank1 none) 1)ᵀ *
      sysMatrix (workIfuncs bank1 none) 1).det ≠ 0 := by
    rw [← gramDetN_eq_left _ _ hk, hg]
    norm_num
  exact ⟨hrank,
    calc_adj_least_squares bank1 displ1 1 none (by norm_num) rfl rfl
      (by norm_num [clipVal, bank1]) (by norm_num [clipVal, bank1])
      (by norm_num [bank1]) hk hrank (fun _ => 0)⟩

/-- Claim C2: exact-fit recovery.  If the displacement map is exactly the
linear combination of the influence functions of the bank with coefficients `c0`
(no noise), the displacement matches the grid of the bank, the stride is positive,
the clip margin leaves a nonempty working grid, the bank has at least one actuator
and the subsampled system matrix has full column rank, then `calc_adj`
succeeds, returns exactly the coefficients `c0`, and its adjustment map
reproduces the (clipped) displacement exactly. -/
theorem calc_adj_exact_recovery
    (ifuncs : Arr4) (displ : Arr2) (n_ss : ℕ) (clip : Option ℕ) (c0 : ℕ → ℚ)
    (hs : 0 < n_ss)
    (hd1 : displ.d1 = ifuncs.d3) (hd2 : displ.d2 = ifuncs.d4)
    (hdval : ∀ x y : ℕ, displ.val x y =
      rsum (ifuncs.d1 * ifuncs.d2) fun t =>
        c0 t * ifuncs.val (t / ifuncs.d2) (t % ifuncs.d2) x y)
    (hc1 : 2 * clipVal clip < ifuncs.d3) (hc2 : 2 * clipVal clip < ifuncs.d4)
    (hact : 0 < ifuncs.d1 * ifuncs.d2)
    (hk : nAct (workIfuncs ifuncs clip) ≤ kSS (workIfuncs ifuncs clip) n_ss)
    (hrank : ((sysMatrix (workIfuncs ifuncs clip) n_ss)ᵀ *
        sysMatrix (workIfuncs ifuncs clip) n_ss).det ≠ 0) :
    calcOk (calc_adj ifuncs displ n_ss clip) = true ∧
    (∀ t : ℕ, t < ifuncs.d1 * ifuncs.d2 →
      (getRes (calc_adj ifuncs displ n_ss clip)).coeffs t = c0 t) ∧
    (∀ i j : ℕ, j < (workDispl displ clip).d2 →
      (getRes (calc_adj ifuncs displ n_ss clip)).adj.val i j =
        (workDispl displ clip).val i j) := by
  have hw1 := workDispl_d1_eq_d3 ifuncs displ clip hd1
  have hw2 := workDispl_d2_eq_d4 ifuncs displ clip hd2
  have h2 := index_guard _ _ n_ss hs hw1 hw2
  have h3 : gramDetN (workIfuncs ifuncs clip) n_ss ≠ 0 := by
    rw [gramDetN_eq_left _ _ hk]
    exact hrank
  have h4 : (workIfuncs ifuncs clip).d3 * (workIfuncs ifuncs clip).d4 =
      (workDispl displ clip).d1 * (workDispl displ clip).d2 := by
    rw [hw1, hw2]
  have hok := calcAdjCore_ok _ _ n_ss (work_grid_ne_zero ifuncs clip hc1 hc2)
    (work_nAct_ne_zero ifuncs clip hact) (Nat.pos_iff_ne_zero.mp hs) h2 h3 h4
  have hn : nAct (workIfuncs ifuncs clip) = ifuncs.d1 * ifuncs.d2 := by
    rw [nAct, workIfuncs_d1, workIfuncs_d2]
  have hcomb : ∀ x y : ℕ, (workDispl displ clip).val x y =
      rsum (nAct (workIfuncs ifuncs clip)) fun t =>
        c0 t * (workIfuncs ifuncs clip).val (t / (workIfuncs ifuncs clip).d2)
          (t % (workIfuncs ifuncs clip).d2) x y := by
    intro x y
    rw [workDispl_val, hdval, ← hn]
    refine rsum_congr fun t ht => ?_
    rw [workIfuncs_val, workIfuncs_d2]
  have hd : sampledTarget (workIfuncs ifuncs clip) (workDispl displ clip) n_ss =
      (sysMatrix (workIfuncs ifuncs clip) n_ss).mulVec (fun t => c0 t.val) := by
    funext m
    simp only [sampledTarget, dF, Matrix.mulVec, Matrix.dotProduct, sysMatrix,
      Matrix.of_apply, MF]
    rw [hcomb, rsum_eq_sum]
    refine Finset.sum_congr rfl fun t _ => ?_
    ring
  have hcoefF : ∀ t : Fin (nAct (workIfuncs ifuncs clip)),
      coeffsF (workIfuncs ifuncs clip) (workDispl displ clip) n_ss t.val = c0 t.val := by
    intro t
    rw [coeffsF_eq _ _ _ hk t, hd, pinv_recover _ hrank]
  refine ⟨?_, ?_, ?_⟩
  · rw [calc_adj_def, hok]
    rfl
  · intro t ht
    rw [calc_adj_def, hok]
    have ht' : t < nAct (workIfuncs ifuncs clip) := by omega
    have hres : getRes (Except.ok (okResult (workIfuncs ifuncs clip)
        (workDispl displ clip) n_ss)) =
        okResult (workIfuncs ifuncs clip) (workDispl displ clip) n_ss := rfl
    rw [hres, okResult_coeffs_lt _ _ _ ht']
    exact hcoefF ⟨t, ht'⟩
  · intro i j hj
    rw [calc_adj_def, hok]
    have hres : getRes (Except.ok (okResult (workIfuncs ifuncs clip)
        (workDispl displ clip) n_ss)) =
        okResult (workIfuncs ifuncs clip) (workDispl displ clip) n_ss := rfl
    rw [hres]
    show adjFlatF (workIfuncs ifuncs clip) (workDispl displ clip) n_ss
      (i * (workDispl displ clip).d2 + j) = (workDispl displ clip).val i j
    have hj4 : j < (workIfuncs ifuncs clip).d4 := hw2 ▸ hj
    have hp : i * (workDispl displ clip).d2 + j = i * (workIfuncs ifuncs clip).d4 + j := by
      rw [hw2]
    simp only [adjFlatF, M2dAllF]
    rw [hcomb i j, hp]
    refine rsum_congr fun t ht => ?_
    rw [flat_div hj4, flat_mod hj4]
    have hc := hcoefF ⟨t, ht⟩
    simp only at hc
    rw [hc]
    ring

theorem det_one_rat {n : ℕ} : (1 : Matrix (Fin n) (Fin n) ℚ).det = 1 := Matrix.det_one

theorem scenario_sysMatrix (m : Fin (kSS (workIfuncs scenarioBank none) 1))
    (q : Fin (nAct (workIfuncs scenarioBank none))) :
    sysMatrix (workIfuncs scenarioBank none) 1 m q = if m.val = q.val then 1 else 0 := by
  simp only [sysMatrix, Matrix.of_apply, MF, workIfuncs, clipTruthy, Bool.false_eq_true,
    if_false, scenarioBank]
  norm_num [ssCount]
  by_cases h : m.val = q.val
  · rw [if_pos (by omega), if_pos h]
  · rw [if_neg (by omega), if_neg h]

theorem scenario_gram :
    (sysMatrix (workIfuncs scenarioBank none) 1)ᵀ *
      sysMatrix (workIfuncs scenarioBank none) 1 = 1 := by
  ext s t
  rw [Matrix.mul_apply, Matrix.one_apply]
  have h64 : kSS (workIfuncs scenarioBank none) 1 = 64 := rfl
  have h16 : nAct (workIfuncs scenarioBank none) = 16 := rfl
  have hs64 : s.val < kSS (workIfuncs scenarioBank none) 1 := by
    have hs := s.isLt
    omega
  rw [Finset.sum_congr rfl fun m _ => by
    rw [Matrix.transpose_apply, scenario_sysMatrix m s, scenario_sysMatrix m t]]
  rw [Finset.sum_eq_single (⟨s.val, hs64⟩ : Fin (kSS (workIfuncs scenarioBank none) 1))]
  · by_cases h : s = t
    · simp [h]
    · simp [Fin.val_eq_val, h]
  · intro b _ hb
    rw [if_neg (fun hc => hb (Fin.ext hc)), zero_mul]
  · intro hb
    exact absurd (Finset.mem_univ _) hb

/-- Witness for C2: the spec scenario.  The bank has shape `(4, 4, 8, 8)` with
actuator `i` a unit impulse at a distinct grid cell, the displacement is
`2.0 · actuator 0 - 1.5 · actuator 5`, stride 1, no clipping; `calc_adj`
recovers `coeffs 0 = 2`, `coeffs 5 = -1.5`, zero elsewhere (entry 3 shown),
and the adjustment map equals the displacement (entry `(2, 3)` shown). -/
theorem calc_adj_exact_recovery_witness :
    (∀ x y : ℕ, scenarioDispl.val x y =
      rsum (scenarioBank.d1 * scenarioBank.d2) fun t =>
        scenarioC0 t * scenarioBank.val (t / scenarioBank.d2) (t % scenarioBank.d2) x y) ∧
    calcOk (calc_adj scenarioBank scenarioDispl 1 none) = true ∧
    (getRes (calc_adj scenarioBank scenarioDispl 1 none)).coeffs 0 = 2 ∧
    (getRes (calc_adj scenarioBank scenarioDispl 1 none)).coeffs 5 = -(3 / 2) ∧
    (getRes (calc_adj scenarioBank scenarioDispl 1 none)).coeffs 3 = 0 ∧
    (getRes (calc_adj scenarioBank scenarioDispl 1 none)).adj.val 2 3 =
      (workDispl scenarioDispl none).val 2 3 := by
  have hk : nAct (workIfuncs scenarioBank none) ≤ kSS (workIfuncs scenarioBank none) 1 := by
    rw [workIfuncs_none]
    exact (by norm_num : (16 : ℕ) ≤ 64)
  have hrank : ((sysMatrix (workIfuncs scenarioBank none) 1)ᵀ *
      sysMatrix (workIfuncs scenarioBank none) 1).det ≠ 0 := by
    rw [scenario_gram, det_one_rat]
    norm_num
  have h := calc_adj_exact_recovery scenarioBank scenarioDispl 1 none scenarioC0
    (by norm_num) rfl rfl (fun x y => rfl)
    (by norm_num [clipVal, scenarioBank]) (by norm_num [clipVal, scenarioBank])
    (by norm_num [scenarioBank]) hk hrank
  refine ⟨fun x y => rfl, h.1, ?_, ?_, ?_, ?_⟩
  · exact (h.2.1 0 (by exact (by norm_num : (0 : ℕ) < 16))).trans rfl
  · exact (h.2.1 5 (by exact (by norm_num : (5 : ℕ) < 16))).trans rfl
  · exact (h.2.1 3 (by exact (by norm_num : (3 : ℕ) < 16))).trans rfl
  · exact h.2.2 2 3 (by exact (by norm_num : (3 : ℕ) < 8))

theorem calcAdjCore_err_div (w : Arr4) (wd : Arr2) (n_ss : ℕ)
    (h0a : w.d3 * w.d4 ≠ 0) (h0b : nAct w ≠ 0)
    (h1 : n_ss ≠ 0)
    (h2 : (ssCount w.d3 n_ss = 0 ∨ (ssCount w.d3 n_ss - 1) * n_ss < wd.d1) ∧
          (ssCount w.d4 n_ss = 0 ∨ (ssCount w.d4 n_ss - 1) * n_ss < wd.d2))
    (h3 : gramDetN w n_ss = 0) :
    calcAdjCore w wd n_ss = .error .divideByZero := by
  rw [calcAdjCore, if_neg h0a, if_neg h0b, if_neg h1, if_neg (not_not_intro h2), if_pos h3]

/-- Counterexample to C3 as stated: on a `(1, 1, 3, 3)` bank with `clip = 1`
and stride 1, the returned adjustment map has first dimension 1 (the clipped
resolution `X - 2·clip`), not the full unclipped `X = 3` the claim asserts. -/
theorem calc_adj_adj_shape_counterexample :
    (getRes (calc_adj bank3 displ3 1 (some 1))).adj.d1 = 1 ∧
    (getRes (calc_adj bank3 displ3 1 (some 1))).adj.d1 ≠ bank3.d3 := by
  constructor <;>
    norm_num [calc_adj, calcAdjCore, workIfuncs, workDispl, clipTruthy, clipVal, clip2, clip4,
      bank3, displ3, ssCount, nAct, kSS, gramDetN, MtMF, MMtF, MF, cdetN,
      rsum_one, rsum_zero, rsum_succ, getRes, okResult, adjArr]

/-- Claim C3 (amended): for a displacement map matching the grid of the bank, a
successful `calc_adj` returns an adjustment map of the clipped shape
`(X - 2·clip, Y - 2·clip)` — not the full unclipped `(X, Y)` — and each of
its entries applies the returned coefficient vector to the clipped (but
un-subsampled) influence-function bank. -/
theorem calc_adj_adj_clipped
    (ifuncs : Arr4) (displ : Arr2) (n_ss : ℕ) (clip : Option ℕ)
    (hd1 : displ.d1 = ifuncs.d3) (hd2 : displ.d2 = ifuncs.d4)
    (hok : calcOk (calc_adj ifuncs displ n_ss clip) = true) :
    (getRes (calc_adj ifuncs displ n_ss clip)).adj.d1 = ifuncs.d3 - 2 * clipVal clip ∧
    (getRes (calc_adj ifuncs displ n_ss clip)).adj.d2 = ifuncs.d4 - 2 * clipVal clip ∧
    (∀ i j : ℕ, j < (workDispl displ clip).d2 →
      (getRes (calc_adj ifuncs displ n_ss clip)).adj.val i j =
        rsum (nAct (workIfuncs ifuncs clip)) fun t =>
          (workIfuncs ifuncs clip).val (t / (workIfuncs ifuncs clip).d2)
              (t % (workIfuncs ifuncs clip).d2) i j *
            (getRes (calc_adj ifuncs displ n_ss clip)).coeffs t) := by
  rw [calc_adj_def] at hok ⊢
  have hres := getRes_calcAdjCore _ _ _ hok
  rw [hres]
  have hw2 := workDispl_d2_eq_d4 ifuncs displ clip hd2
  refine ⟨?_, ?_, ?_⟩
  · show (workDispl displ clip).d1 = _
    rw [workDispl_d1, hd1]
  · show (workDispl displ clip).d2 = _
    rw [workDispl_d2, hd2]
  · intro i j hj
    show adjFlatF (workIfuncs ifuncs clip) (workDispl displ clip) n_ss
      (i * (workDispl displ clip).d2 + j) = _
    have hj4 : j < (workIfuncs ifuncs clip).d4 := hw2 ▸ hj
    have hp : i * (workDispl displ clip).d2 + j =
        i * (workIfuncs ifuncs clip).d4 + j := by
      rw [hw2]
    simp only [adjFlatF, M2dAllF]
    rw [hp]
    refine rsum_congr fun t ht => ?_
    rw [flat_div hj4, flat_mod hj4, okResult_coeffs_lt _ _ _ ht]

/-- Witness for the amended C3 at a concrete input: `(1, 1, 3, 3)` bank,
matching 3×3 displacement, stride 1, `clip = 1`. -/
theorem calc_adj_adj_clipped_witness :
    displ3.d1 = bank3.d3 ∧
    calcOk (calc_adj bank3 displ3 1 (some 1)) = true ∧
    (getRes (calc_adj bank3 displ3 1 (some 1))).adj.d1 = bank3.d3 - 2 * clipVal (some 1) ∧
    (getRes (calc_adj bank3 displ3 1 (some 1))).adj.d2 = bank3.d4 - 2 * clipVal (some 1) ∧
    (getRes (calc_adj bank3 displ3 1 (some 1))).adj.val 0 0 =
      rsum (nAct (workIfuncs bank3 (some 1))) fun t =>
        (workIfuncs bank3 (some 1)).val (t / (workIfuncs bank3 (some 1)).d2)
            (t % (workIfuncs bank3 (some 1)).d2) 0 0 *
          (getRes (calc_adj bank3 displ3 1 (some 1))).coeffs t := by
  have hok : calcOk (calc_adj bank3 displ3 1 (some 1)) = true := by
    norm_num [calc_adj, calcAdjCore, workIfuncs, workDispl, clipTruthy, clipVal, clip2, clip4,
      bank3, displ3, ssCount, nAct, kSS, gramDetN, MtMF, MMtF, MF, cdetN,
      rsum_one, rsum_zero, rsum_succ, calcOk]
  have h := calc_adj_adj_clipped bank3 displ3 1 (some 1) rfl rfl hok
  refine ⟨rfl, hok, h.1, h.2.1, h.2.2 0 0 ?_⟩
  norm_num [workDispl, clipTruthy, clipVal, clip2, displ3]

/-- Counterexample to C4 as stated: a bank of two identical actuators on a
2×2 grid has a nonzero system matrix (largest singular value positive, shown
by the nonzero entry) yet only one nonzero singular value out of two; the
claim says `calc_adj` succeeds with small singular values zeroed, but the
code divides by the zero singular value and fails. -/
theorem calc_adj_no_tolerance_counterexample :
    calcErr (calc_adj bankDup displ22 1 none) = some CalcError.divideByZero ∧
    MF (workIfuncs bankDup none) 1 0 0 = 1 := by
  constructor <;>
    norm_num [calc_adj, calcAdjCore, workIfuncs, workDispl, clipTruthy, clipVal,
      bankDup, displ22, ssCount, nAct, kSS, gramDetN, MtMF, MMtF, MF, cdetN,
      rsum_one, rsum_zero, rsum_succ, calcErr]

/-- Claim C4 (amended): `calc_adj` defines no `SingularSystemError` and
applies no singular-value tolerance: it inverts every singular value
unconditionally.  For every all-zero influence-function bank (nonempty, with
a matching displacement map, positive stride and valid clip) every singular
value is zero and the pseudo-inverse computation divides by zero — the float
code silently produces non-finite values rather than raising a typed error,
modelled as the `divideByZero` failure. -/
theorem calc_adj_zero_bank_divide_by_zero
    (ifuncs : Arr4) (displ : Arr2) (n_ss : ℕ) (clip : Option ℕ)
    (hz : ∀ r c x y : ℕ, ifuncs.val r c x y = 0)
    (hs : 0 < n_ss)
    (hd1 : displ.d1 = ifuncs.d3) (hd2 : displ.d2 = ifuncs.d4)
    (hn : 0 < ifuncs.d1 * ifuncs.d2)
    (hc1 : 2 * clipVal clip < ifuncs.d3) (hc2 : 2 * clipVal clip < ifuncs.d4) :
    calcErr (calc_adj ifuncs displ n_ss clip) = some CalcError.divideByZero := by
  have h2 := index_guard (workIfuncs ifuncs clip) (workDispl displ clip) n_ss hs
    (workDispl_d1_eq_d3 ifuncs displ clip hd1) (workDispl_d2_eq_d4 ifuncs displ clip hd2)
  have hM : sysMatrix (workIfuncs ifuncs clip) n_ss = 0 := by
    ext m q
    simp only [sysMatrix, Matrix.of_apply, MF, workIfuncs_val, Matrix.zero_apply]
    exact hz _ _ _ _
  have hnw : 0 < nAct (workIfuncs ifuncs clip) := by
    rw [nAct, workIfuncs_d1, workIfuncs_d2]
    exact hn
  have hkw : 0 < kSS (workIfuncs ifuncs clip) n_ss := by
    rw [kSS]
    refine Nat.mul_pos (ssCount_pos ?_ hs) (ssCount_pos ?_ hs)
    · rw [workIfuncs_d3]
      omega
    · rw [workIfuncs_d4]
      omega
  have h3 : gramDetN (workIfuncs ifuncs clip) n_ss = 0 := by
    by_cases hk : nAct (workIfuncs ifuncs clip) ≤ kSS (workIfuncs ifuncs clip) n_ss
    · rw [gramDetN_eq_left _ _ hk, hM, Matrix.transpose_zero, Matrix.mul_zero]
      exact Matrix.det_zero ⟨⟨0, hnw⟩⟩
    · rw [gramDetN_eq_right _ _ hk, hM, Matrix.transpose_zero, Matrix.mul_zero]
      exact Matrix.det_zero ⟨⟨0, hkw⟩⟩
  rw [calc_adj_def, calcAdjCore_err_div _ _ _ (work_grid_ne_zero ifuncs clip hc1 hc2)
    (work_nAct_ne_zero ifuncs clip hn) (Nat.pos_iff_ne_zero.mp hs) h2 h3]
  rfl

/-- Witness for the amended C4: the all-zero `(1, 1, 2, 2)` bank with a
matching 2×2 displacement, stride 1 and no clipping fails with the
division-by-zero error. -/
theorem calc_adj_zero_bank_divide_by_zero_witness :
    (∀ r c x y : ℕ, zbank.val r c x y = 0) ∧
    calcErr (calc_adj zbank displ22 1 none) = some CalcError.divideByZero :=
  ⟨fun _ _ _ _ => rfl,
    calc_adj_zero_bank_divide_by_zero zbank displ22 1 none (fun _ _ _ _ => rfl)
      (by norm_num) rfl rfl (by norm_num [zbank])
      (by norm_num [clipVal, zbank]) (by norm_num [clipVal, zbank])⟩

/-- Counterexample to C5 as stated: `clip = 5` on an 8×8 grid (so
`2·clip ≥ 8`) fails, but with the untyped numpy `ValueError` of
`ifuncs.reshape(-1, n_ax, n_az)` on the emptied working grid (line 27), not
with a dedicated `InvalidClipError`; the very same untyped error arises with
no clip at all on a bank whose grid is already empty, so the failure comes
from no clip validation. -/
theorem calc_adj_overclip_counterexample :
    calcErr (calc_adj bank88 displ88 1 (some 5)) = some CalcError.emptyReshape ∧
    calcErr (calc_adj bank08 displ88 1 none) = some CalcError.emptyReshape := by
  constructor <;>
    norm_num [calc_adj, calcAdjCore, workIfuncs, workDispl, clipTruthy, clipVal, clip2, clip4,
      bank88, bank08, displ88, calcErr]

/-- Claim C5 (amended): the code performs no clip validation and defines no
`InvalidClipError`.  A supplied clip margin with `2·clip ≥ X` or `2·clip ≥ Y`
leaves an empty working grid (numpy slice clamping), and the call then fails
at `ifuncs.reshape(-1, n_ax, n_az)` (line 27) with the untyped numpy
`ValueError` — `-1` cannot be resolved when the product of the known
dimensions is zero — producing no result. -/
theorem calc_adj_overclip_reshape_error
    (ifuncs : Arr4) (displ : Arr2) (n_ss : ℕ) (c : ℕ)
    (hover : ifuncs.d3 ≤ 2 * c ∨ ifuncs.d4 ≤ 2 * c) :
    calcErr (calc_adj ifuncs displ n_ss (some c)) = some CalcError.emptyReshape := by
  have hzero : (workIfuncs ifuncs (some c)).d3 * (workIfuncs ifuncs (some c)).d4 = 0 := by
    rw [workIfuncs_d3, workIfuncs_d4]
    have hcv : clipVal (some c) = c := rfl
    rw [hcv]
    rcases hover with h | h
    · have h0 : ifuncs.d3 - 2 * c = 0 := by omega
      rw [h0, Nat.zero_mul]
    · have h0 : ifuncs.d4 - 2 * c = 0 := by omega
      rw [h0, Nat.mul_zero]
  rw [calc_adj_def, calcAdjCore, if_pos hzero]
  rfl

/-- Witness for the amended C5: `clip = 5` on the 8×8 one-actuator bank fails
with the untyped empty-reshape error and produces no result. -/
theorem calc_adj_overclip_reshape_error_witness :
    (bank88.d3 ≤ 2 * 5 ∨ bank88.d4 ≤ 2 * 5) ∧
    calcErr (calc_adj bank88 displ88 1 (some 5)) = some CalcError.emptyReshape :=
  ⟨Or.inl (by norm_num [bank88]),
    calc_adj_overclip_reshape_error bank88 displ88 1 5 (Or.inl (by norm_num [bank88]))⟩

/-- Counterexample to C6 as stated: a 64×1 displacement map against an
`(1, 1, 8, 8)` bank (mismatched shape, equal total size) with stride 8
samples only in-range points and reshapes consistently, so `calc_adj`
returns a result instead of failing. -/
theorem calc_adj_shape_mismatch_counterexample :
    calcOk (calc_adj bank88 displ64x1 8 none) = true ∧ displ64x1.d1 ≠ bank88.d3 := by
  constructor
  · norm_num [calc_adj, calcAdjCore, workIfuncs, workDispl, clipTruthy, clipVal,
      bank88, displ64x1, ssCount, nAct, kSS, gramDetN, MtMF, MMtF, MF, cdetN,
      rsum_one, rsum_zero, rsum_succ, calcOk]
  · norm_num [displ64x1, bank88]

set_option maxRecDepth 80000 in
set_option maxHeartbeats 1000000 in
/-- Claim C6 (amended): the code has no `ShapeMismatchError` and validates no
shapes.  For the spec's cited example — bank grid 8×8, displacement grid 8×9,
stride 1 — the sampling succeeds and the coefficients are computed, and the
call then fails at `adj.reshape(*displ.shape)` with the untyped numpy size
error (64 cells into shape `(8, 9)`), modelled as `reshapeError`; other
mismatched shapes can fail earlier (out-of-range sampling) or not at all. -/
theorem calc_adj_shape_mismatch_reshape_error :
    calcErr (calc_adj bank88 displ89 1 none) = some CalcError.reshapeError := by
  norm_num [calc_adj, calcAdjCore, workIfuncs, workDispl, clipTruthy, clipVal,
    bank88, displ89, ssCount, nAct, kSS, gramDetN, MtMF, MMtF, MF, cdetN,
    rsum_one, rsum_zero, rsum_const, calcErr]

/-- Claim C8: shape invariants of a successful fit on matching grids — the
coefficient vector has length `R·C` (entries beyond it are absent, modelled
as 0), the adjustment map has the shape of the reconstruction grid (the
clipped grid), and the returned full-resolution matrix has shape
the number of cells of the reconstruction grid by the number
of actuators. -/
theorem calc_adj_shapes
    (ifuncs : Arr4) (displ : Arr2) (n_ss : ℕ) (clip : Option ℕ)
    (hd1 : displ.d1 = ifuncs.d3) (hd2 : displ.d2 = ifuncs.d4)
    (hok : calcOk (calc_adj ifuncs displ n_ss clip) = true) :
    (getRes (calc_adj ifuncs displ n_ss clip)).numCoeffs = ifuncs.d1 * ifuncs.d2 ∧
    (∀ t : ℕ, ifuncs.d1 * ifuncs.d2 ≤ t →
      (getRes (calc_adj ifuncs displ n_ss clip)).coeffs t = 0) ∧
    (getRes (calc_adj ifuncs displ n_ss clip)).adj.d1 = (workIfuncs ifuncs clip).d3 ∧
    (getRes (calc_adj ifuncs displ n_ss clip)).adj.d2 = (workIfuncs ifuncs clip).d4 ∧
    (getRes (calc_adj ifuncs displ n_ss clip)).MallRows =
      (workIfuncs ifuncs clip).d3 * (workIfuncs ifuncs clip).d4 ∧
    (getRes (calc_adj ifuncs displ n_ss clip)).MallCols = ifuncs.d1 * ifuncs.d2 := by
  rw [calc_adj_def] at hok ⊢
  have hres := getRes_calcAdjCore _ _ _ hok
  rw [hres]
  have hn : nAct (workIfuncs ifuncs clip) = ifuncs.d1 * ifuncs.d2 := by
    rw [nAct, workIfuncs_d1, workIfuncs_d2]
  refine ⟨hn, ?_, ?_, ?_, rfl, hn⟩
  · intro t ht
    exact okResult_coeffs_ge _ _ _ (by omega)
  · exact workDispl_d1_eq_d3 ifuncs displ clip hd1
  · exact workDispl_d2_eq_d4 ifuncs displ clip hd2

/-- Witness for C8 at a concrete input: the `(1, 1, 1, 1)` unit bank with a
matching displacement, stride 1 and no clipping. -/
theorem calc_adj_shapes_witness :
    displ1.d1 = bank1.d3 ∧
    calcOk (calc_adj bank1 displ1 1 none) = true ∧
    (getRes (calc_adj bank1 displ1 1 none)).numCoeffs = bank1.d1 * bank1.d2 ∧
    (getRes (calc_adj bank1 displ1 1 none)).coeffs 7 = 0 ∧
    (getRes (calc_adj bank1 displ1 1 none)).adj.d1 = (workIfuncs bank1 none).d3 ∧
    (getRes (calc_adj bank1 displ1 1 none)).MallRows =
      (workIfuncs bank1 none).d3 * (workIfuncs bank1 none).d4 ∧
    (getRes (calc_adj bank1 displ1 1 none)).MallCols = bank1.d1 * bank1.d2 := by
  have hok : calcOk (calc_adj bank1 displ1 1 none) = true := by
    norm_num [calc_adj, calcAdjCore, workIfuncs, workDispl, clipTruthy, clipVal,
      bank1, displ1, ssCount, nAct, kSS, gramDetN, MtMF, MMtF, MF, cdetN,
      rsum_one, rsum_zero, rsum_succ, calcOk]
  have h := calc_adj_shapes bank1 displ1 1 none rfl rfl hok
  exact ⟨rfl, hok, h.1, h.2.1 7 (by norm_num [bank1]), h.2.2.1, h.2.2.2.2.1, h.2.2.2.2.2⟩

/-- Claim C9: the mirror-symmetry expansion of the loader (with the hardcoded
`R = C = 20`, half `10`) produces a `(20, 20, X, Y)` bank in which
the original quadrant occupies indices `[0:10, 0:10]` unchanged and each
reflected copy occupies the complementary quadrant index range with the
surface axes reflected correspondingly. -/
theorem load_ifuncs_mirror (Q : Arr4) (i j x y : ℕ)
    (hi : i < 10) (hj : j < 10) (_hx : x < Q.d3) (_hy : y < Q.d4) :
    (load_ifuncs_expand Q).d1 = 20 ∧ (load_ifuncs_expand Q).d2 = 20 ∧
    (load_ifuncs_expand Q).d3 = Q.d3 ∧ (load_ifuncs_expand Q).d4 = Q.d4 ∧
    (load_ifuncs_expand Q).val i j x y = Q.val i j x y ∧
    (load_ifuncs_expand Q).val (10 + i) j x y =
      Q.val (10 - 1 - i) j (Q.d3 - 1 - x) y ∧
    (load_ifuncs_expand Q).val i (10 + j) x y =
      Q.val i (10 - 1 - j) x (Q.d4 - 1 - y) ∧
    (load_ifuncs_expand Q).val (10 + i) (10 + j) x y =
      Q.val (10 - 1 - i) (10 - 1 - j) (Q.d3 - 1 - x) (Q.d4 - 1 - y) := by
  refine ⟨rfl, rfl, rfl, rfl, ?_, ?_, ?_, ?_⟩
  · show (if i < 10 then _ else _) = _
    rw [if_pos hi, if_pos hj]
  · show (if 10 + i < 10 then _ else _) = _
    rw [if_neg (by omega), if_pos hj]
    have h1 : 19 - (10 + i) = 10 - 1 - i := by omega
    rw [h1]
  · show (if i < 10 then _ else _) = _
    rw [if_pos hi, if_neg (by omega)]
    have h1 : 19 - (10 + j) = 10 - 1 - j := by omega
    rw [h1]
  · show (if 10 + i < 10 then _ else _) = _
    rw [if_neg (by omega), if_neg (by omega)]
    have h1 : 19 - (10 + i) = 10 - 1 - i := by omega
    have h2 : 19 - (10 + j) = 10 - 1 - j := by omega
    rw [h1, h2]

/-- Witness for C9 at a concrete quadrant: shape `(10, 10, 2, 3)` with
distinct entries, checked at `i = 1`, `j = 2`, `x = 1`, `y = 2`. -/
theorem load_ifuncs_mirror_witness :
    (1 : ℕ) < 10 ∧ (1 : ℕ) < quadQ.d3 ∧
    ((load_ifuncs_expand quadQ).d1 = 20 ∧ (load_ifuncs_expand quadQ).d2 = 20 ∧
     (load_ifuncs_expand quadQ).d3 = quadQ.d3 ∧ (load_ifuncs_expand quadQ).d4 = quadQ.d4 ∧
     (load_ifuncs_expand quadQ).val 1 2 1 2 = quadQ.val 1 2 1 2 ∧
     (load_ifuncs_expand quadQ).val (10 + 1) 2 1 2 =
       quadQ.val (10 - 1 - 1) 2 (quadQ.d3 - 1 - 1) 2 ∧
     (load_ifuncs_expand quadQ).val 1 (10 + 2) 1 2 =
       quadQ.val 1 (10 - 1 - 2) 1 (quadQ.d4 - 1 - 2) ∧
     (load_ifuncs_expand quadQ).val (10 + 1) (10 + 2) 1 2 =
       quadQ.val (10 - 1 - 1) (10 - 1 - 2) (quadQ.d3 - 1 - 1) (quadQ.d4 - 1 - 2)) :=
  ⟨by norm_num, by norm_num [quadQ],
    load_ifuncs_mirror quadQ 1 2 1 2 (by norm_num) (by norm_num)
      (by norm_num [quadQ]) (by norm_num [quadQ])⟩
